import Mathlib

/-!
Verification development for the Password-Generator repository.

This file gives a shallow embedding of `src/backend/password_utils.py` into
Lean 4 and proves (or refutes) the specification's claims about it.

Modelling conventions:
* Python strings are modelled as `String`/`List Char`, restricted to the
  ASCII behaviour of `str.lower`, `str.upper` and `str.capitalize`
  (matching Lean's `Char.toLower`/`Char.toUpper`, which act on `A`-`Z` and
  `a`-`z` only); every character literal used by the source is ASCII.
* Randomness (`random.*` and `secrets.*` calls) is modelled by explicit
  oracle streams `Nat → Nat` (or `Nat → Bool` for coin flips): each draw
  reads an arbitrary value from a stream, so a theorem quantified over all
  streams covers every possible run of the program.
* `random.shuffle` is modelled by `shuffleGo`, which repeatedly extracts an
  oracle-chosen element; the only fact used about it is that its output is
  a permutation of its input, which is true of Fisher-Yates as well.
* Fallible code (Python `raise ValueError`) is modelled with
  `Except String`, carrying the message of the exception.
-/

namespace PasswordGenerator

/-- Python `string.ascii_lowercase`. -/
def asciiLowercase : List Char := "abcdefghijklmnopqrstuvwxyz".toList

/-- Python `string.ascii_uppercase`. -/
def asciiUppercase : List Char := "ABCDEFGHIJKLMNOPQRSTUVWXYZ".toList

/-- Python `string.digits`. -/
def digitChars : List Char := "0123456789".toList

/-- Python `string.punctuation`. -/
def punctuationChars : List Char := "!\"#$%&\x27()*+,-./:;<=>?@[\\]^_`\x7b|\x7d~".toList

/-- Python `string.ascii_letters` (lowercase followed by uppercase). -/
def asciiLetters : List Char := asciiLowercase ++ asciiUppercase

/-- The similar-looking characters excluded by `exclude_similar`
(`"l1Io0O"` in `generate_random_password`). -/
def similarChars : List Char := "l1Io0O".toList

/-- The ambiguous characters excluded by `exclude_ambiguous`
in `generate_random_password`. -/
def ambiguousChars : List Char := "\x7b\x7d[]()/\\\x27\"`~,;:.<>".toList

/-- Model of `secrets.choice`/`random.choice` on a list: the oracle stream
`g` read at position `k` gives an arbitrary index, reduced modulo the list
length. Python raises `IndexError` on an empty sequence; here the empty
case returns a junk default and every use below is guarded by
non-emptiness of the list drawn from. -/
def choiceFrom (g : Nat → Nat) (k : Nat) (l : List Char) : Char :=
  l.getD (g k % l.length) '?'

/-- Fuelled worker for the model of `random.shuffle`: repeatedly extract an
oracle-chosen element of the remaining list.  The fuel starts at the list
length, so it never runs out. -/
def shuffleAux (h : Nat → Nat) : Nat → Nat → List Char → List Char
  | _, 0, _ => []
  | _, _ + 1, [] => []
  | k, n + 1, x :: xs =>
    let c := (x :: xs).getD (h k % (x :: xs).length) x
    c :: shuffleAux h (k + 1) n ((x :: xs).erase c)

/-- Model of `random.shuffle`: an oracle-driven permutation of the input
(every permutation is reachable for a suitable oracle). -/
def shuffleGo (h : Nat → Nat) (k : Nat) (l : List Char) : List Char :=
  shuffleAux h k l.length l

/-- Per-character ASCII uppercase test `A`-`Z`, expressed with the same
numeric guard that `Char.toLower` (the model of Python `str.lower`) uses. -/
def isUpperLetter (c : Char) : Bool := decide (65 ≤ c.toNat ∧ c.toNat ≤ 90)

/-- Per-character model of Python `str.replace(a, b)` for single-character
patterns (used by the level-1 substitutions of `transform_name`). -/
def replaceChar (a b : Char) (l : List Char) : List Char :=
  l.map (fun c => if c = a then b else c)

/-- The fixed symbol alphabet of level-3 `transform_name`. -/
def level3Symbols : List Char := "@#$%&*+-=_".toList

/-- Embedding of `transform_name` from `password_utils.py`.  `coin` models
the `random.random() > 0.7` capitalization coin flips of level 2 (one flip
per character, an arbitrary boolean each), `g` models the
`random.choice` draws of level 3. -/
def transform_name (coin : Nat → Bool) (g : Nat → Nat)
    (name_part : String) (level : Nat) : String :=
  if name_part = "" then ""
  else
    let t0 := name_part.data.map Char.toLower
    let t1 :=
      if level ≥ 1 then
        replaceChar 'i' '!' (replaceChar 'e' '3' (replaceChar 'a' '@' t0))
      else t0
    let t2 :=
      if level ≥ 2 then
        let tr :=
          if t1.length > 2 then
            t1.reverse.enum.map (fun p =>
              if p.1 % 2 = 0 then p.2 else t1.getD (p.1 - 1) '?')
          else t1
        tr.enum.map (fun p => if coin p.1 then Char.toUpper p.2 else p.2)
      else t1
    let t3 :=
      if level ≥ 3 then
        let withSyms :=
          (t2.enum.map (fun p => [choiceFrom g p.1 level3Symbols, p.2])).flatten
        withSyms.drop (withSyms.length - 12)
      else t2
    String.mk t3

/-- Configuration record of `generate_random_password`, one field per
keyword parameter of the Python function (the request's target length and
the six boolean toggles). -/
structure RPConfig where
  length : Nat
  include_uppercase : Bool
  include_lowercase : Bool
  include_digits : Bool
  include_special : Bool
  exclude_similar : Bool
  exclude_ambiguous : Bool

/-- The `character_sets` list assembled by `generate_random_password`, in
source order: lowercase, uppercase, digits, punctuation. -/
def character_sets (cfg : RPConfig) : List (List Char) :=
  (if cfg.include_lowercase then [asciiLowercase] else []) ++
  (if cfg.include_uppercase then [asciiUppercase] else []) ++
  (if cfg.include_digits then [digitChars] else []) ++
  (if cfg.include_special then [punctuationChars] else [])

/-- The `excluded_chars` string built from the two exclusion toggles. -/
def excluded_chars (cfg : RPConfig) : List Char :=
  (if cfg.exclude_similar then similarChars else []) ++
  (if cfg.exclude_ambiguous then ambiguousChars else [])

/-- One step of the `filtered_sets` loop: keep the characters of a class
that are not excluded. -/
def filterSet (cfg : RPConfig) (charset : List Char) : List Char :=
  charset.filter (fun c => !(excluded_chars cfg).contains c)

/-- The `filtered_sets` list: each class filtered independently, dropped
when the filter empties it. -/
def filtered_sets (cfg : RPConfig) : List (List Char) :=
  (character_sets cfg).filterMap (fun charset =>
    let f := filterSet cfg charset
    if f.isEmpty then none else some f)

/-- The loop `for charset in filtered_sets: password.append(secrets.choice(charset))`:
one oracle-chosen character per filtered class, consuming stream positions
`k, k+1, ...`. -/
def pickOnePer (g : Nat → Nat) : Nat → List (List Char) → List Char
  | _, [] => []
  | k, charset :: rest => choiceFrom g k charset :: pickOnePer g (k + 1) rest

/-- Embedding of `generate_random_password`.  `g` models the
`secrets.choice` draws (first one per filtered class, then the fill loop),
`h` models the final `random.shuffle`. -/
def generate_random_password (g h : Nat → Nat) (cfg : RPConfig) :
    Except String (List Char) :=
  if character_sets cfg = [] then
    .error "At least one character set must be included"
  else
    let fs := filtered_sets cfg
    let base := pickOnePer g 0 fs
    let all_chars := fs.flatten
    let pw := base ++ (List.range (cfg.length - base.length)).map
      (fun j => choiceFrom g (fs.length + j) all_chars)
    .ok (shuffleGo h 0 pw)

/-- Python `str.capitalize` (ASCII model): first character upper-cased,
all remaining characters lower-cased. -/
def pyCapitalize : List Char → List Char
  | [] => []
  | c :: rest => Char.toUpper c :: rest.map Char.toLower

/-- The `vowel_map` substitution of `generate_name_based_password`
(`a→@  e→3  i→1  o→0  u→v`). -/
def vowelSub (c : Char) : Char :=
  if c = 'a' then '@'
  else if c = 'e' then '3'
  else if c = 'i' then '1'
  else if c = 'o' then '0'
  else if c = 'u' then 'v'
  else c

/-- The special-character alphabet used by `generate_name_based_password`
when `include_random` is set. -/
def nbSpecials : List Char := "!@#$%&*+-=_".toList

/-- Oracle streams consumed by `generate_name_based_password`, one per
random stage of the source (sharing Python's single global RNG is modelled
by giving every stage its own arbitrary stream). -/
structure NBRand where
  capCoin : Nat → Bool
  digitCountDraw : Nat
  digitDraw : Nat → Nat
  specialCountDraw : Nat
  specialDraw : Nat → Nat
  padDraw : Nat → Nat
  shuffleDraw : Nat → Nat

/-- The `# Ensure length requirement` block of
`generate_name_based_password`: truncate when too long, pad with
oracle-chosen characters from letters+digits+punctuation when too short. -/
def fitLength (pad : Nat → Nat) (length : Nat) (password : List Char) : List Char :=
  if password.length > length then password.take length
  else if password.length < length then
    password ++ (List.range (length - password.length)).map
      (fun i => choiceFrom pad i (asciiLetters ++ digitChars ++ punctuationChars))
  else password

/-- Embedding of `generate_name_based_password`. -/
def generate_name_based_password (r : NBRand) (name_part1 name_part2 : String)
    (length : Nat) (complexity : Nat) (include_random : Bool) : String :=
  let transformed_city :=
    if complexity ≥ 2 then
      let city_part := name_part1.data.map Char.toLower
      let half := city_part.length / 2
      pyCapitalize ((city_part.drop half).reverse ++ city_part.take half)
    else pyCapitalize name_part1.data
  let word_part := name_part2.data.map Char.toLower
  let transformed_word :=
    if complexity ≥ 2 then
      let vw := word_part.map vowelSub
      if complexity ≥ 3 then
        vw.enum.map (fun p => if r.capCoin p.1 then Char.toUpper p.2 else p.2)
      else vw
    else pyCapitalize word_part
  let password := transformed_city ++ transformed_word
  let password :=
    if include_random then
      let nd := 2 + r.digitCountDraw % 3
      let ns := 1 + r.specialCountDraw % 2
      password ++ (List.range nd).map (fun i => choiceFrom r.digitDraw i digitChars)
        ++ (List.range ns).map (fun i => choiceFrom r.specialDraw i nbSpecials)
    else password
  String.mk (shuffleGo r.shuffleDraw 0 (fitLength r.padDraw length password))

/-- The all-zero oracle for `generate_name_based_password` (used to
evaluate the model at concrete inputs). -/
def nbRand0 : NBRand :=
  ⟨fun _ => false, 0, fun _ => 0, 0, fun _ => 0, fun _ => 0, fun _ => 0⟩

/-- The fixed word list of `generate_passphrase`. -/
def passphrase_words : List String :=
  ["apple", "banana", "carrot", "dog", "elephant", "flower", "giraffe",
   "house", "igloo", "jungle", "kangaroo", "lion", "mountain", "night",
   "ocean", "penguin", "queen", "river", "sun", "tree", "umbrella",
   "volcano", "water", "xylophone", "yacht", "zebra"]

/-- Model of `secrets.choice` on a list of strings (same convention as
`choiceFrom`). -/
def choiceStrFrom (g : Nat → Nat) (k : Nat) (l : List String) : String :=
  l.getD (g k % l.length) ""

/-- Embedding of `generate_passphrase`.  `g` models the word draws, `gnum`
the single `secrets.randbelow(90)` draw.  The optional name parts are
appended through level-1 `transform_name`, which consumes no randomness,
so constant dummy streams are passed to it.  Note that the source contains
no validation of `word_count` at all. -/
def generate_passphrase (g : Nat → Nat) (gnum : Nat) (word_count : Nat)
    (separator : String) (capitalize add_number : Bool)
    (name_part1 name_part2 : Option String) : String :=
  let selected_words := (List.range word_count).map
    (fun i => choiceStrFrom g i passphrase_words)
  let selected_words := selected_words ++
    (match name_part1 with
     | some s => if s ≠ "" then [transform_name (fun _ => false) (fun _ => 0) s 1] else []
     | none => [])
  let selected_words := selected_words ++
    (match name_part2 with
     | some s => if s ≠ "" then [transform_name (fun _ => false) (fun _ => 0) s 1] else []
     | none => [])
  let selected_words :=
    if capitalize then selected_words.map (fun w => String.mk (pyCapitalize w.data))
    else selected_words
  let passphrase := String.intercalate separator selected_words
  if add_number then passphrase ++ toString (10 + gnum % 90) else passphrase

/-- Optional rule set of `validate_password_rules`, mirroring the pydantic
`ValidationRules` model (absent entries mean the rule is not enforced). -/
structure ValidationRules where
  min_length : Option Nat
  require_upper : Option Bool
  require_lower : Option Bool
  require_digit : Option Bool
  require_special : Option Bool

/-- Result record of `validate_password_rules`. -/
structure ValidationResult where
  is_valid : Bool
  errors : List String
deriving DecidableEq

/-- Python truthiness of an optional bool (`None` and `False` are falsy). -/
def truthyBool : Option Bool → Bool
  | some b => b
  | none => false

/-- Model of the `re.search(r'[...]', password)` presence tests: does the
string contain a character of the class? -/
def containsMatch (p : Char → Bool) (s : String) : Bool := s.data.any p

/-- The regex class `[A-Z]`. -/
def isUpperAZ (c : Char) : Bool := 'A' ≤ c && c ≤ 'Z'

/-- The regex class `[a-z]`. -/
def isLowerAZ (c : Char) : Bool := 'a' ≤ c && c ≤ 'z'

/-- The regex class `[0-9]`. -/
def isDigit09 (c : Char) : Bool := '0' ≤ c && c ≤ '9'

/-- The regex class `[^a-zA-Z0-9]` of the special-character rule. -/
def isSpecialChar (c : Char) : Bool := !(isLowerAZ c || isUpperAZ c || isDigit09 c)

/-- The f-string error message of the length rule. -/
def minLengthMsg (n : Nat) : String :=
  "Password too short (min " ++ toString n ++ " chars)"

/-- Embedding of `validate_password_rules`: evaluate each enabled rule,
accumulate messages in source order (length, upper, lower, digit,
special), succeed iff no message accumulated.  The `n ≠ 0` guard on the
length rule is Python's truthiness of `rules.get("min_length")`. -/
def validate_password_rules (password : String) (rules : ValidationRules) :
    ValidationResult :=
  let errors :=
    (match rules.min_length with
     | some n => if n ≠ 0 ∧ password.length < n then [minLengthMsg n] else []
     | none => []) ++
    (if truthyBool rules.require_upper && !containsMatch isUpperAZ password then
      ["Password must contain uppercase letters"] else []) ++
    (if truthyBool rules.require_lower && !containsMatch isLowerAZ password then
      ["Password must contain lowercase letters"] else []) ++
    (if truthyBool rules.require_digit && !containsMatch isDigit09 password then
      ["Password must contain digits"] else []) ++
    (if truthyBool rules.require_special && !containsMatch isSpecialChar password then
      ["Password must contain special characters"] else [])
  ⟨errors.length == 0, errors⟩

/-- Modelled from the spec: the runtime digest registry of Python
`hashlib` (an external library, not part of `src/`), as the list of
always-available algorithm names; `hashlib.new` raises
`ValueError("unsupported hash type ...")` exactly for names outside the
registry, and the digest computation itself is an external deterministic
function, passed here as the parameter `digest`. -/
def digest_algorithms : List String :=
  ["md5", "sha1", "sha224", "sha256", "sha384", "sha512",
   "sha3_224", "sha3_256", "sha3_384", "sha3_512",
   "shake_128", "shake_256", "blake2b", "blake2s"]

/-- Embedding of `hash_password`: look the algorithm up in the digest
registry, then apply the (external, pure) digest to the password. -/
def hash_password (digest : String → String → String)
    (password : String) (algorithm : String) : Except String String :=
  if algorithm ∈ digest_algorithms then .ok (digest algorithm password)
  else .error ("unsupported hash type " ++ algorithm)

theorem choiceFrom_mem (g : Nat → Nat) (k : Nat) {l : List Char} (hl : l ≠ []) :
    choiceFrom g k l ∈ l := by
  have hpos : 0 < l.length := List.length_pos.mpr hl
  have hlt : g k % l.length < l.length := Nat.mod_lt _ hpos
  rw [choiceFrom, l.getD_eq_getElem '?' hlt]
  exact l.getElem_mem hlt

theorem shuffleAux_perm (h : Nat → Nat) :
    ∀ (n : Nat) (k : Nat) (l : List Char), l.length ≤ n →
      (shuffleAux h k n l).Perm l := by
  intro n
  induction n with
  | zero =>
    intro k l hl
    have : l = [] := List.eq_nil_of_length_eq_zero (Nat.le_zero.mp hl)
    subst this
    simp [shuffleAux]
  | succ n ih =>
    intro k l hl
    match l with
    | [] => simp [shuffleAux]
    | x :: xs =>
      rw [shuffleAux]
      have hne : (x :: xs) ≠ [] := by simp
      have hpos : 0 < (x :: xs).length := List.length_pos.mpr hne
      have hlt : h k % (x :: xs).length < (x :: xs).length := Nat.mod_lt _ hpos
      have hcmem : (x :: xs).getD (h k % (x :: xs).length) x ∈ x :: xs := by
        rw [(x :: xs).getD_eq_getElem x hlt]
        exact (x :: xs).getElem_mem hlt
      have herase : ((x :: xs).erase ((x :: xs).getD (h k % (x :: xs).length) x)).length ≤ n := by
        rw [List.length_erase_of_mem hcmem]
        simpa using Nat.le_of_succ_le_succ hl
      have hrec := ih (k + 1) ((x :: xs).erase ((x :: xs).getD (h k % (x :: xs).length) x)) herase
      exact (hrec.cons _).trans (List.perm_cons_erase hcmem).symm

theorem shuffleGo_perm (h : Nat → Nat) (k : Nat) (l : List Char) :
    (shuffleGo h k l).Perm l :=
  shuffleAux_perm h l.length k l (Nat.le_refl _)

theorem shuffleGo_length (h : Nat → Nat) (k : Nat) (l : List Char) :
    (shuffleGo h k l).length = l.length :=
  (shuffleGo_perm h k l).length_eq

theorem shuffleGo_mem_iff (h : Nat → Nat) (k : Nat) (l : List Char) (c : Char) :
    c ∈ shuffleGo h k l ↔ c ∈ l :=
  (shuffleGo_perm h k l).mem_iff

theorem toNat_ofNat_valid {n : Nat} (h : n < 55296) : (Char.ofNat n).toNat = n := by
  unfold Char.ofNat
  rw [dif_pos (Or.inl h)]
  rfl

theorem isUpperLetter_toLower (c : Char) : isUpperLetter (Char.toLower c) = false := by
  unfold Char.toLower
  by_cases h : c.toNat ≥ 65 ∧ c.toNat ≤ 90
  · rw [if_pos h]
    have hv : c.toNat + 32 < 55296 := by omega
    simp only [isUpperLetter, toNat_ofNat_valid hv]
    have : ¬(65 ≤ c.toNat + 32 ∧ c.toNat + 32 ≤ 90) := by omega
    exact decide_eq_false this
  · rw [if_neg h]
    simp only [isUpperLetter]
    exact decide_eq_false (by omega)

example : transform_name (fun _ => false) (fun _ => 0) "Maria" 1 = "m@r!@" := by decide

example : transform_name (fun _ => false) (fun _ => 0) "" 3 = "" := by decide

theorem mem_replaceChar {c a b : Char} {l : List Char}
    (hc : c ∈ replaceChar a b l) : c = b ∨ (c ∈ l ∧ c ≠ a) := by
  simp only [replaceChar, List.mem_map] at hc
  obtain ⟨d, hd, hdc⟩ := hc
  by_cases hda : d = a
  · left
    rw [← hdc, if_pos hda]
  · right
    rw [← hdc, if_neg hda]
    exact ⟨hd, hda⟩

theorem replaceChar_of_not_mem {a b : Char} {l : List Char} (ha : a ∉ l) :
    replaceChar a b l = l := by
  unfold replaceChar
  have h : ∀ c ∈ l, (if c = a then b else c) = id c :=
    fun c hc => if_neg (fun (hca : c = a) => ha (hca ▸ hc))
  rw [List.map_congr_left h, List.map_id]

theorem toLower_eq_self_of_not_upper {c : Char} (h : isUpperLetter c = false) :
    Char.toLower c = c := by
  unfold Char.toLower
  rw [if_neg]
  simpa [isUpperLetter] using h

theorem map_toLower_eq_self {l : List Char} (h : ∀ c ∈ l, isUpperLetter c = false) :
    l.map Char.toLower = l := by
  have h2 : ∀ c ∈ l, Char.toLower c = id c :=
    fun c hc => toLower_eq_self_of_not_upper (h c hc)
  rw [List.map_congr_left h2, List.map_id]

/-- Claim C10: for every input string, `transform_name` at level 1 returns a
string containing no uppercase letters and no occurrence of `a`, `e`, or
`i`, because the input is lowercased before the vowel substitution is
applied. -/
theorem transform_name_level1_char_classes (coin : Nat → Bool) (g : Nat → Nat)
    (s : String) :
    ∀ c ∈ (transform_name coin g s 1).data,
      isUpperLetter c = false ∧ c ≠ 'a' ∧ c ≠ 'e' ∧ c ≠ 'i' := by
  intro c hc
  by_cases hs : s = ""
  · subst hs
    simp [transform_name] at hc
  · rw [transform_name, if_neg hs] at hc
    simp only [ge_iff_le, Nat.le_refl, if_true,
      show ¬(2 ≤ 1) by omega, show ¬(3 ≤ 1) by omega, if_false] at hc
    rcases mem_replaceChar hc with h1 | ⟨hc, hne1⟩
    · subst h1; refine ⟨by decide, by decide, by decide, by decide⟩
    rcases mem_replaceChar hc with h2 | ⟨hc, hne2⟩
    · subst h2; refine ⟨by decide, by decide, by decide, by decide⟩
    rcases mem_replaceChar hc with h3 | ⟨hc, hne3⟩
    · subst h3; refine ⟨by decide, by decide, by decide, by decide⟩
    simp only [List.mem_map] at hc
    obtain ⟨d, _, hdc⟩ := hc
    exact ⟨hdc ▸ isUpperLetter_toLower d, hne3, hne2, hne1⟩

/-- Witness for C10 at the concrete input `"AEIx"`, whose level-1 image is
`"@3!x"`; the character `@` of the output satisfies the three class
properties. -/
theorem transform_name_level1_char_classes_witness :
    isUpperLetter '@' = false ∧ '@' ≠ 'a' ∧ '@' ≠ 'e' ∧ '@' ≠ 'i' :=
  transform_name_level1_char_classes (fun _ => false) (fun _ => 0) "AEIx" '@'
    (by decide)

/-- Counterexample to claim C7 as stated: the string `"B"` contains none of
`a`, `e`, `i`, yet level-1 `transform_name` changes it (to `"b"`), because
the input is lowercased first. -/
theorem transform_name_level1_not_id_on_B :
    ('a' ∉ "B".data ∧ 'e' ∉ "B".data ∧ 'i' ∉ "B".data) ∧
    transform_name (fun _ => false) (fun _ => 0) "B" 1 ≠ "B" := by decide

/-- Claim C7 (amended): every ASCII input string that contains no uppercase
letter and no occurrence of `a`, `e`, or `i` is returned unchanged by
`transform_name` at level 1. -/
theorem transform_name_level1_identity (coin : Nat → Bool) (g : Nat → Nat)
    (s : String)
    (hascii : ∀ c ∈ s.data, c.toNat < 128)
    (hupper : ∀ c ∈ s.data, isUpperLetter c = false)
    (ha : 'a' ∉ s.data) (he : 'e' ∉ s.data) (hi : 'i' ∉ s.data) :
    transform_name coin g s 1 = s := by
  by_cases hs : s = ""
  · subst hs; rfl
  · rw [transform_name, if_neg hs]
    simp only [ge_iff_le, Nat.le_refl, if_true,
      show ¬(2 ≤ 1) by omega, show ¬(3 ≤ 1) by omega, if_false]
    rw [map_toLower_eq_self hupper, replaceChar_of_not_mem ha,
      replaceChar_of_not_mem he, replaceChar_of_not_mem hi]

/-- Witness for the amended C7 at the concrete input `"xyz2"`. -/
theorem transform_name_level1_identity_witness :
    ((∀ c ∈ "xyz2".data, c.toNat < 128) ∧
      (∀ c ∈ "xyz2".data, isUpperLetter c = false)) ∧
    transform_name (fun _ => false) (fun _ => 0) "xyz2" 1 = "xyz2" :=
  ⟨⟨by decide, by decide⟩,
    transform_name_level1_identity (fun _ => false) (fun _ => 0) "xyz2"
      (by decide) (by decide) (by decide) (by decide) (by decide)⟩

theorem pickOnePer_length (g : Nat → Nat) :
    ∀ (k : Nat) (fs : List (List Char)), (pickOnePer g k fs).length = fs.length := by
  intro k fs
  induction fs generalizing k with
  | nil => rfl
  | cons f rest ih => simp [pickOnePer, ih]

theorem pickOnePer_cover (g : Nat → Nat) :
    ∀ (k : Nat) (fs : List (List Char)) (f : List Char), f ∈ fs → f ≠ [] →
      ∃ c ∈ pickOnePer g k fs, c ∈ f := by
  intro k fs
  induction fs generalizing k with
  | nil => intro f hf; exact absurd hf (List.not_mem_nil f)
  | cons f0 rest ih =>
    intro f hf hne
    rcases List.mem_cons.mp hf with rfl | hf
    · exact ⟨choiceFrom g k f, List.mem_cons_self _ _, choiceFrom_mem g k hne⟩
    · obtain ⟨c, hc1, hc2⟩ := ih (k + 1) f hf hne
      exact ⟨c, List.mem_cons_of_mem _ hc1, hc2⟩

theorem mem_pickOnePer (g : Nat → Nat) :
    ∀ (k : Nat) (fs : List (List Char)), (∀ f ∈ fs, f ≠ []) →
      ∀ c ∈ pickOnePer g k fs, ∃ f ∈ fs, c ∈ f := by
  intro k fs
  induction fs generalizing k with
  | nil => intro _ c hc; exact absurd hc (List.not_mem_nil c)
  | cons f0 rest ih =>
    intro hne c hc
    rcases List.mem_cons.mp hc with rfl | hc
    · exact ⟨f0, List.mem_cons_self _ _,
        choiceFrom_mem g k (hne f0 (List.mem_cons_self _ _))⟩
    · obtain ⟨f, hf1, hf2⟩ :=
        ih (k + 1) (fun f hf => hne f (List.mem_cons_of_mem _ hf)) c hc
      exact ⟨f, List.mem_cons_of_mem _ hf1, hf2⟩

theorem mem_character_sets {cfg : RPConfig} {cs : List Char}
    (h : cs ∈ character_sets cfg) :
    cs = asciiLowercase ∨ cs = asciiUppercase ∨ cs = digitChars ∨
      cs = punctuationChars := by
  simp only [character_sets, List.mem_append] at h
  rcases h with ((h | h) | h) | h <;> split at h <;> simp_all

theorem filterSet_flags_ne_nil (es ea : Bool) (cs : List Char)
    (h : cs = asciiLowercase ∨ cs = asciiUppercase ∨ cs = digitChars ∨
      cs = punctuationChars) :
    cs.filter (fun c =>
      !((if es then similarChars else []) ++
        (if ea then ambiguousChars else [])).contains c) ≠ [] := by
  rcases h with rfl | rfl | rfl | rfl <;> cases es <;> cases ea <;> decide

theorem filterSet_ne_nil {cfg : RPConfig} {cs : List Char}
    (h : cs ∈ character_sets cfg) : filterSet cfg cs ≠ [] :=
  filterSet_flags_ne_nil cfg.exclude_similar cfg.exclude_ambiguous cs
    (mem_character_sets h)

theorem filterMap_eq_map_of_forall {α β : Type} {f : α → Option β} {g : α → β}
    {l : List α} (h : ∀ a ∈ l, f a = some (g a)) : l.filterMap f = l.map g := by
  induction l with
  | nil => rfl
  | cons a l ih =>
    rw [List.filterMap_cons, h a (List.mem_cons_self _ _), List.map_cons,
      ih (fun a ha => h a (List.mem_cons_of_mem _ ha))]

theorem filtered_sets_eq_map (cfg : RPConfig) :
    filtered_sets cfg = (character_sets cfg).map (filterSet cfg) := by
  apply filterMap_eq_map_of_forall
  intro cs hcs
  simp only
  rw [if_neg]
  intro hemp
  exact filterSet_ne_nil hcs (List.isEmpty_iff.mp hemp)

theorem length_filtered_sets (cfg : RPConfig) :
    (filtered_sets cfg).length = (character_sets cfg).length := by
  rw [filtered_sets_eq_map, List.length_map]

theorem mem_filtered_sets {cfg : RPConfig} {f : List Char}
    (h : f ∈ filtered_sets cfg) :
    f ≠ [] ∧ ∀ c ∈ f, c ∉ excluded_chars cfg := by
  rw [filtered_sets_eq_map] at h
  obtain ⟨cs, hcs, rfl⟩ := List.mem_map.mp h
  refine ⟨filterSet_ne_nil hcs, ?_⟩
  intro c hc
  have := (List.mem_filter.mp hc).2
  simpa using this

theorem character_sets_ne_nil {cfg : RPConfig}
    (hsel : cfg.include_lowercase = true ∨ cfg.include_uppercase = true ∨
      cfg.include_digits = true ∨ cfg.include_special = true) :
    character_sets cfg ≠ [] := by
  intro hnil
  rcases hsel with h | h | h | h <;> simp [character_sets, h] at hnil

/-- Claim C2: for every call with at least one category enabled and
requested length at least the number of selected categories, the returned
password has exactly the requested length and contains at least one
character from each selected category. -/
theorem random_password_length_and_coverage (g h : Nat → Nat) (cfg : RPConfig)
    (hsel : cfg.include_lowercase = true ∨ cfg.include_uppercase = true ∨
      cfg.include_digits = true ∨ cfg.include_special = true)
    (hlen : (character_sets cfg).length ≤ cfg.length) :
    ∃ pw, generate_random_password g h cfg = .ok pw ∧
      pw.length = cfg.length ∧
      ∀ cs ∈ character_sets cfg, ∃ c ∈ pw, c ∈ cs := by
  have hne := character_sets_ne_nil hsel
  rw [generate_random_password, if_neg hne]
  refine ⟨_, rfl, ?_, ?_⟩
  · rw [shuffleGo_length, List.length_append, pickOnePer_length,
      List.length_map, List.length_range, length_filtered_sets]
    omega
  · intro cs hcs
    have hfmem : filterSet cfg cs ∈ filtered_sets cfg := by
      rw [filtered_sets_eq_map]
      exact List.mem_map_of_mem _ hcs
    obtain ⟨c, hc1, hc2⟩ :=
      pickOnePer_cover g 0 (filtered_sets cfg) (filterSet cfg cs) hfmem
        (filterSet_ne_nil hcs)
    refine ⟨c, ?_, (List.mem_filter.mp hc2).1⟩
    rw [shuffleGo_mem_iff]
    exact List.mem_append_left _ hc1

/-- Witness for C2: all four categories enabled, both exclusions on,
length 12; the generator succeeds with a 12-character password covering
all four categories. -/
theorem random_password_length_and_coverage_witness :
    ((⟨12, true, true, true, true, true, true⟩ : RPConfig).include_lowercase = true ∨
      (⟨12, true, true, true, true, true, true⟩ : RPConfig).include_uppercase = true ∨
      (⟨12, true, true, true, true, true, true⟩ : RPConfig).include_digits = true ∨
      (⟨12, true, true, true, true, true, true⟩ : RPConfig).include_special = true) ∧
    (character_sets ⟨12, true, true, true, true, true, true⟩).length ≤ 12 ∧
    ∃ pw, generate_random_password (fun _ => 0) (fun _ => 0)
        ⟨12, true, true, true, true, true, true⟩ = .ok pw ∧
      pw.length = 12 ∧
      ∀ cs ∈ character_sets ⟨12, true, true, true, true, true, true⟩,
        ∃ c ∈ pw, c ∈ cs :=
  ⟨by decide, by decide,
    random_password_length_and_coverage (fun _ => 0) (fun _ => 0)
      ⟨12, true, true, true, true, true, true⟩ (by decide) (by decide)⟩

theorem mem_ok_password_not_excluded {g h : Nat → Nat} {cfg : RPConfig}
    {pw : List Char} (hok : generate_random_password g h cfg = .ok pw) :
    ∀ c ∈ pw, c ∉ excluded_chars cfg := by
  by_cases hne : character_sets cfg = []
  · rw [generate_random_password, if_pos hne] at hok
    exact absurd hok (by simp)
  · rw [generate_random_password, if_neg hne] at hok
    simp only at hok
    obtain rfl := (Except.ok.injEq _ _).mp hok.symm
    intro c hc
    rw [shuffleGo_mem_iff] at hc
    have hfne : ∀ f ∈ filtered_sets cfg, f ≠ [] :=
      fun f hf => (mem_filtered_sets hf).1
    have hex : ∃ f ∈ filtered_sets cfg, c ∈ f := by
      rcases List.mem_append.mp hc with hc | hc
      · exact mem_pickOnePer g 0 (filtered_sets cfg) hfne c hc
      · obtain ⟨j, _, hj⟩ := List.mem_map.mp hc
        have hfl : (filtered_sets cfg).flatten ≠ [] := by
          intro hflat
          have hlen0 : (filtered_sets cfg).length ≠ 0 := by
            rw [length_filtered_sets]
            exact fun h0 => hne (List.eq_nil_of_length_eq_zero h0)
          obtain ⟨f0, hf0⟩ := List.exists_mem_of_ne_nil (filtered_sets cfg)
            (by intro h0; rw [h0] at hlen0; exact hlen0 rfl)
          exact hfne f0 hf0 (List.flatten_eq_nil_iff.mp hflat f0 hf0)
        have := choiceFrom_mem g ((filtered_sets cfg).length + j) hfl
        rw [hj] at this
        exact List.mem_flatten.mp this
    obtain ⟨f, hf, hcf⟩ := hex
    exact (mem_filtered_sets hf).2 c hcf

/-- Claim C5: whenever `generate_random_password` returns a password, the
password contains no similar-looking character if `exclude_similar` is
set, and no ambiguous character if `exclude_ambiguous` is set. -/
theorem random_password_no_excluded (g h : Nat → Nat) (cfg : RPConfig)
    (pw : List Char) (hok : generate_random_password g h cfg = .ok pw) :
    (cfg.exclude_similar = true → ∀ c ∈ pw, c ∉ similarChars) ∧
    (cfg.exclude_ambiguous = true → ∀ c ∈ pw, c ∉ ambiguousChars) := by
  have hmain := mem_ok_password_not_excluded hok
  constructor
  · intro hes c hc hsim
    refine hmain c hc ?_
    rw [excluded_chars, hes, if_pos rfl]
    exact List.mem_append_left _ hsim
  · intro hea c hc hamb
    refine hmain c hc ?_
    rw [excluded_chars, hea, if_pos rfl]
    exact List.mem_append_right _ hamb

/-- Witness for C5 at a concrete configuration (length 16, everything
enabled): the generator returns a password, and the theorem applies. -/
theorem random_password_no_excluded_witness :
    ∃ pw, generate_random_password (fun _ => 1) (fun _ => 0)
        ⟨16, true, true, true, true, true, true⟩ = .ok pw ∧
      ((true = true → ∀ c ∈ pw, c ∉ similarChars) ∧
        (true = true → ∀ c ∈ pw, c ∉ ambiguousChars)) := by
  refine ⟨_, rfl, ?_⟩
  exact random_password_no_excluded (fun _ => 1) (fun _ => 0)
    ⟨16, true, true, true, true, true, true⟩ _ rfl

/-- Claim C1 is violated by the code: with requested length 2 and all four
categories selected, `generate_random_password` raises no error, and the
returned password has length 4 (one character per category), not the
requested length 2.  The source has no length-versus-category check. -/
theorem random_password_short_length_no_error (g h : Nat → Nat) :
    ∃ pw, generate_random_password g h ⟨2, true, true, true, true, true, true⟩ =
        .ok pw ∧ pw.length = 4 ∧ pw.length ≠ 2 := by
  rw [generate_random_password, if_neg (by decide)]
  refine ⟨_, rfl, ?_, ?_⟩
  · rw [shuffleGo_length, List.length_append, pickOnePer_length,
      List.length_map, List.length_range]
    decide
  · rw [shuffleGo_length, List.length_append, pickOnePer_length,
      List.length_map, List.length_range]
    decide

theorem fitLength_length (pad : Nat → Nat) (length : Nat) (password : List Char) :
    (fitLength pad length password).length = length := by
  unfold fitLength
  by_cases h1 : password.length > length
  · rw [if_pos h1, List.length_take]
    omega
  · rw [if_neg h1]
    by_cases h2 : password.length < length
    · rw [if_pos h2, List.length_append, List.length_map, List.length_range]
      omega
    · rw [if_neg h2]
      omega

/-- Claim C8: the password returned by `generate_name_based_password` has
exactly the requested length, for every input and every random draw: the
composed string is truncated or padded to the target length and the final
shuffle preserves it. -/
theorem name_based_password_length (r : NBRand) (name_part1 name_part2 : String)
    (length complexity : Nat) (include_random : Bool) :
    (generate_name_based_password r name_part1 name_part2 length complexity
      include_random).length = length := by
  rw [generate_name_based_password]
  simp only [String.length]
  rw [shuffleGo_length, fitLength_length]

/-- Counterexample to claim C3 as stated: at name parts `"ab"` and `""`,
length 2, complexity 2, `include_random = false`, the output (here
computed with the all-zero oracle) is `"Ba"`, which contains no digit and
no punctuation character — there is no post-hoc patching in the source. -/
theorem name_based_password_no_patching_counterexample :
    generate_name_based_password nbRand0 "ab" "" 2 2 false = "Ba" ∧
    (¬ ∃ c ∈ ("Ba").data, c ∈ digitChars) ∧
    (¬ ∃ c ∈ ("Ba").data, c ∈ punctuationChars) := by decide

/-- Claim C3 (amended): `generate_name_based_password` performs no
post-hoc character-class patching; with name parts `"ab"` and `""`,
length 2, complexity 2 and `include_random = false`, every possible output
(for every random draw) is a permutation of `"Ba"` and therefore contains
no digit and no punctuation character. -/
theorem name_based_password_no_patching (r : NBRand) :
    ∀ c ∈ (generate_name_based_password r "ab" "" 2 2 false).data,
      c = 'B' ∨ c = 'a' := by
  have key : generate_name_based_password r "ab" "" 2 2 false =
      String.mk (shuffleGo r.shuffleDraw 0 ['B', 'a']) := rfl
  intro c hc
  rw [key] at hc
  have hc2 : c ∈ shuffleGo r.shuffleDraw 0 ['B', 'a'] := hc
  rw [shuffleGo_mem_iff] at hc2
  simpa using hc2

/-- Witness for the amended C3 at the all-zero oracle: `B` is a character
of the output and is indeed one of the two letters. -/
theorem name_based_password_no_patching_witness : 'B' = 'B' ∨ 'B' = 'a' :=
  name_based_password_no_patching nbRand0 'B' (by decide)

/-- Claim C4 is violated by the code: `generate_passphrase` never checks
`word_count`.  With `word_count = 0` (the `< 1` case on naturals) it
raises nothing and returns just the random two-digit number suffix, for
every random draw and separator. -/
theorem passphrase_zero_words_no_error (g : Nat → Nat) (gnum : Nat)
    (separator : String) (capitalize : Bool) :
    generate_passphrase g gnum 0 separator capitalize true none none =
      toString (10 + gnum % 90) := by
  cases capitalize <;> rfl

theorem boolBlock_eq (b : Bool) (p : Char → Bool) (pw wng : String) :
    (if b && !containsMatch p pw then [wng] else []) =
    (if b = true ∧ ¬∃ c ∈ pw.data, p c = true then [wng] else []) := by
  have hiff : (b && !containsMatch p pw) = true ↔
      (b = true ∧ ¬∃ c ∈ pw.data, p c = true) := by
    simp [containsMatch, List.any_eq_true]
  exact if_congr hiff rfl rfl

/-- Claim C6: `validate_password_rules` evaluates every enabled rule with
no short-circuiting, accumulating messages in the fixed order length,
uppercase, lowercase, digit, special; `is_valid` holds iff no message
accumulated; and the password `"abc"` under min-length 8 with all four
class rules yields exactly the four errors length, uppercase, digit,
special, in that order. -/
theorem validate_password_rules_spec :
    (∀ pw r, ((validate_password_rules pw r).is_valid = true ↔
      (validate_password_rules pw r).errors = [])) ∧
    (∀ pw r, (validate_password_rules pw r).errors =
      (match r.min_length with
       | some n => if n ≠ 0 ∧ pw.length < n then [minLengthMsg n] else []
       | none => []) ++
      (if truthyBool r.require_upper = true ∧ ¬∃ c ∈ pw.data, isUpperAZ c = true then
        ["Password must contain uppercase letters"] else []) ++
      (if truthyBool r.require_lower = true ∧ ¬∃ c ∈ pw.data, isLowerAZ c = true then
        ["Password must contain lowercase letters"] else []) ++
      (if truthyBool r.require_digit = true ∧ ¬∃ c ∈ pw.data, isDigit09 c = true then
        ["Password must contain digits"] else []) ++
      (if truthyBool r.require_special = true ∧ ¬∃ c ∈ pw.data, isSpecialChar c = true then
        ["Password must contain special characters"] else [])) ∧
    validate_password_rules "abc" ⟨some 8, some true, some true, some true, some true⟩ =
      ⟨false, ["Password too short (min 8 chars)",
        "Password must contain uppercase letters",
        "Password must contain digits",
        "Password must contain special characters"]⟩ := by
  refine ⟨?_, ?_, by decide⟩
  · intro pw r
    show ((validate_password_rules pw r).errors.length == 0) = true ↔ _
    simp [List.length_eq_zero]
  · intro pw r
    show _ ++ _ ++ _ ++ _ ++ _ = _
    rw [boolBlock_eq, boolBlock_eq, boolBlock_eq, boolBlock_eq]

/-- Claim C9: `hash_password` is deterministic — it consumes no oracle
stream, unlike every generator above, so two calls with the same
arguments are the same value — and it fails exactly when the algorithm
name is not in the digest registry. -/
theorem hash_password_deterministic_and_registry
    (digest : String → String → String) (password algorithm : String) :
    hash_password digest password algorithm =
      hash_password digest password algorithm ∧
    ((∃ e, hash_password digest password algorithm = .error e) ↔
      algorithm ∉ digest_algorithms) := by
  refine ⟨rfl, ?_⟩
  by_cases h : algorithm ∈ digest_algorithms
  · simp [hash_password, h]
  · simp [hash_password, h]

end PasswordGenerator
